import Mathlib

/-!
Verification of the qPCR normalization pipeline of `auto_qPCR.py`.

The pipeline under study (lines 19-69 and 138 of the source) is:

* CT coercion (line 19):
  `results['CT'] = pd.to_numeric(results['CT'].replace('Undetermined', np.nan), errors='coerce')`
* Reference aggregation (lines 41-44):
  `hk_means = hk_data.groupby('Sample Name')['CT'].agg(lambda x:
     np.exp(np.mean(np.log(x.dropna()))) if norm_method == 'Geometric Mean' else np.mean(x))`
  where `np.mean` applied to a pandas Series dispatches to `Series.mean`,
  which skips NaN entries (`skipna=True`).
* Join and normalization (lines 46-48): `HK_mean` joined per sample name,
  `ΔCt = CT - HK_mean`, `Expression = 2 ** (-ΔCt)`.
* Label extraction (line 50): `str.extract(r'(.*)\s+(\d+)$')` (first match,
  `re.search` semantics; dot does not match a newline).
* Plot data (line 52): rows with target in the genes of interest, dropping
  rows whose Expression is NaN.
* Summary (line 69): group by Condition, aggregate mean and std
  (pandas sample standard deviation, `ddof=1`, NaN for groups of size < 2).
* CSV export (line 138): all joined rows, with no filtering.

IEEE floating-point numbers are modelled by `RVal`: a real number, one of the
two infinities, or NaN (pandas uses NaN as the missing-value marker, so
`nan` doubles as "missing").  Real arithmetic is modelled exactly (no
rounding or underflow).
-/

/-- Float-like value: finite real, plus or minus infinity, or NaN
(which pandas also uses as the missing marker). -/
inductive RVal where
  | fin (x : ℝ)
  | pinf
  | ninf
  | nan
deriving Inhabited

/-- NaN test. -/
def RVal.isNan : RVal → Bool
  | .nan => true
  | _ => false

/-- Positive-infinity test. -/
def RVal.isPinf : RVal → Bool
  | .pinf => true
  | _ => false

/-- Negative-infinity test. -/
def RVal.isNinf : RVal → Bool
  | .ninf => true
  | _ => false

/-- Model of `Series.dropna`: remove NaN entries. -/
def dropna (l : List RVal) : List RVal := l.filter (fun v => !v.isNan)

/-- The finite values of a list of float-like values, in order. -/
def finVals (l : List RVal) : List ℝ :=
  l.filterMap (fun v => match v with | .fin x => some x | _ => none)

/-- Model of `Series.mean` with its default `skipna=True`: NaN entries are
skipped; the mean of an empty (or all-NaN) series is NaN; an infinity makes
the sum (hence the mean) infinite, and opposite infinities give NaN. -/
noncomputable def seriesMean (l : List RVal) : RVal :=
  if (dropna l).isEmpty then .nan
  else if (dropna l).any RVal.isPinf && (dropna l).any RVal.isNinf then .nan
  else if (dropna l).any RVal.isPinf then .pinf
  else if (dropna l).any RVal.isNinf then .ninf
  else .fin ((finVals (dropna l)).sum / ((dropna l).length : ℝ))

/-- Model of elementwise `np.log`: the logarithm of a positive real, `-inf`
at zero, NaN at a negative real, and the IEEE conventions at special values. -/
noncomputable def npLog : RVal → RVal
  | .fin x => if 0 < x then .fin (Real.log x) else if x = 0 then .ninf else .nan
  | .pinf => .pinf
  | .ninf => .nan
  | .nan => .nan

/-- Model of `np.exp`: `exp(-inf) = 0`, `exp(inf) = inf`, `exp(nan) = nan`. -/
noncomputable def npExp : RVal → RVal
  | .fin x => .fin (Real.exp x)
  | .pinf => .pinf
  | .ninf => .fin 0
  | .nan => .nan

/-- IEEE subtraction on float-like values (used for `CT - HK_mean`). -/
def rsub : RVal → RVal → RVal
  | .nan, _ => .nan
  | _, .nan => .nan
  | .fin a, .fin b => .fin (a - b)
  | .pinf, .pinf => .nan
  | .ninf, .ninf => .nan
  | .pinf, _ => .pinf
  | .ninf, _ => .ninf
  | .fin _, .pinf => .ninf
  | .fin _, .ninf => .pinf

/-- Model of `2 ** (-v)` applied elementwise by numpy:
`2 ** (-(+inf)) = 0`, `2 ** (-(-inf)) = +inf`, NaN propagates, and a finite
exponent uses the real power function. -/
noncomputable def rpow2neg : RVal → RVal
  | .fin x => .fin ((2 : ℝ) ^ (-x))
  | .pinf => .fin 0
  | .ninf => .pinf
  | .nan => .nan

/-- Raw content of a CT cell before coercion: a numeric cell, a text cell,
or an empty cell (read as NaN by pandas). -/
inductive RawCT where
  | num (x : ℝ)
  | str (s : List Char)
  | empty

/-- Digit test on a character, by code point. -/
def isDigitCh (c : Char) : Bool := 48 ≤ c.toNat && c.toNat ≤ 57

/-- Whitespace test on a character (ASCII space, tab, LF, VT, FF, CR). -/
def isSpaceCh (c : Char) : Bool := c.toNat = 32 || (9 ≤ c.toNat && c.toNat ≤ 13)

/-- Numeric value of a digit string. -/
def digitsToNat (l : List Char) : ℕ := l.foldl (fun a c => 10 * a + (c.toNat - 48)) 0

/-- Strip one optional leading sign, returning whether it was a minus and
the remaining characters. -/
def stripSign : List Char → Bool × List Char
  | c :: r =>
    if c.toNat = 45 then (true, r)
    else if c.toNat = 43 then (false, r)
    else (false, c :: r)
  | [] => (false, [])

/-- Case-insensitive character comparison against a lowercase letter:
equal code points, or the uppercase variant (code point 32 lower). -/
def ciChar (a b : Char) : Bool := a.toNat == b.toNat || a.toNat + 32 == b.toNat

/-- Case-insensitive equality with a lowercase-letter pattern. -/
def ciStr : List Char → List Char → Bool
  | [], [] => true
  | a :: as, b :: bs => ciChar a b && ciStr as bs
  | _, _ => false

/-- Case-insensitive prefix match against a lowercase word, returning the
rest of the input on success. -/
def ciWord : List Char → List Char → Option (List Char)
  | s, [] => some s
  | a :: as, b :: bs => if ciChar a b then ciWord as bs else none
  | [], _ :: _ => none

/-- Rational value of a natural number, built from core constructors so the
kernel can evaluate it. -/
def qOfNat (n : ℕ) : ℚ := Rat.divInt (Int.ofNat n) 1

/-- Multiplication on rationals through `Rat.divInt`, which the kernel can
evaluate (the primitive `Rat.mul` does not unfold under kernel reduction). -/
def qMul (a b : ℚ) : ℚ := Rat.divInt (a.num * b.num) (Int.ofNat (a.den * b.den))

/-- Negation on rationals through `Rat.divInt`. -/
def qNeg (a : ℚ) : ℚ := Rat.divInt (-a.num) (Int.ofNat a.den)

/-- Power of ten with an integer exponent, as a rational. -/
def qPow10 : ℤ → ℚ
  | .ofNat n => qOfNat (10 ^ n)
  | .negSucc n => Rat.divInt 1 (Int.ofNat (10 ^ (n + 1)))

/-- Mantissa value of an integer part and a fraction part. -/
def decVal (ip fp : List Char) : ℚ :=
  Rat.divInt (Int.ofNat (digitsToNat ip * 10 ^ fp.length + digitsToNat fp))
    (Int.ofNat (10 ^ fp.length))

/-- Parse an unsigned decimal mantissa (digits, optional point, digits;
at least one digit overall), returning its value and the rest. -/
def parseDec (s : List Char) : Option (ℚ × List Char) :=
  let ip := s.takeWhile isDigitCh
  let r1 := s.dropWhile isDigitCh
  match r1 with
  | c :: r2 =>
    if c.toNat = 46 then
      let fp := r2.takeWhile isDigitCh
      let r3 := r2.dropWhile isDigitCh
      if ip.isEmpty && fp.isEmpty then none
      else some (decVal ip fp, r3)
    else if ip.isEmpty then none else some (qOfNat (digitsToNat ip), c :: r2)
  | [] => if ip.isEmpty then none else some (qOfNat (digitsToNat ip), [])

/-- Parse an exponent suffix (after `e`/`E`): optional sign then at least
one digit. -/
def parseExpTail (s : List Char) : Option (ℤ × List Char) :=
  let ds := (stripSign s).2.takeWhile isDigitCh
  let r := (stripSign s).2.dropWhile isDigitCh
  if ds.isEmpty then none
  else some ((if (stripSign s).1 then -(Int.ofNat (digitsToNat ds)) else Int.ofNat (digitsToNat ds)), r)

/-- Parse an unsigned decimal number with optional scientific exponent. -/
def parseUnsigned (s : List Char) : Option (ℚ × List Char) :=
  match parseDec s with
  | none => none
  | some (m, r) =>
    match r with
    | c :: r2 =>
      if c.toNat = 101 || c.toNat = 69 then
        match parseExpTail r2 with
        | some (e, r3) => some (qMul m (qPow10 e), r3)
        | none => none
      else some (m, c :: r2)
    | [] => some (m, [])

/-- Characters remaining after stripping leading whitespace and an optional
sign. -/
def afterSign (s : List Char) : List Char := (stripSign (s.dropWhile isSpaceCh)).2

/-- Whether the stripped sign was a minus. -/
def signNeg (s : List Char) : Bool := (stripSign (s.dropWhile isSpaceCh)).1

/-- All characters are whitespace. -/
def restSpaces (l : List Char) : Bool := l.all isSpaceCh

/-- Parse a finite decimal number the way the pandas numeric parser does:
optional surrounding whitespace, optional sign, decimal mantissa, optional
scientific exponent.  Returns the exact rational value. -/
def parseQ (s : List Char) : Option ℚ :=
  match parseUnsigned (afterSign s) with
  | some (m, r) => if restSpaces r then some (if signNeg s then qNeg m else m) else none
  | none => none

/-- Model of the `pd.to_numeric` string parser: the finite grammar of
`parseQ` plus the case-insensitive special words `inf`, `infinity` and
`nan`; anything else fails. -/
noncomputable def parseNumeric (s : List Char) : Option RVal :=
  match ciWord (afterSign s) "infinity".data with
  | some r => if restSpaces r then some (if signNeg s then .ninf else .pinf) else none
  | none =>
    match ciWord (afterSign s) "inf".data with
    | some r => if restSpaces r then some (if signNeg s then .ninf else .pinf) else none
    | none =>
      match ciWord (afterSign s) "nan".data with
      | some r => if restSpaces r then some .nan else none
      | none => (parseQ s).map (fun q => .fin (q : ℝ))

/-- Model of line 19 of the source:
`pd.to_numeric(results['CT'].replace('Undetermined', np.nan), errors='coerce')`.
The `replace` step turns the exact string `Undetermined` into NaN, then
`to_numeric` with `errors='coerce'` parses what it can and turns every
other value into NaN; it never raises. -/
noncomputable def ctCoerce : RawCT → RVal
  | .num x => .fin x
  | .empty => .nan
  | .str s =>
    if s = "Undetermined".data then .nan
    else match parseNumeric s with
      | some v => v
      | none => .nan

/-- One row of the parsed `Results` sheet after CT coercion: well position,
sample name, target (gene) name, and the coerced CT value. -/
structure Row where
  well : String
  sample : String
  target : String
  ct : RVal

/-- The two normalization methods offered by the sidebar (line 29). -/
inductive AggMode where
  | individualMean
  | geometricMean

/-- Model of line 41: `hk_data = results[results['Target Name'].isin(housekeeping_genes)]`. -/
def hk_data (rows : List Row) (hk : List String) : List Row :=
  rows.filter (fun r => hk.contains r.target)

/-- CT values of the reference-gene rows of one sample, in row order
(the group that `groupby('Sample Name')['CT']` hands to the lambda). -/
def hkCts (rows : List Row) (hk : List String) (s : String) : List RVal :=
  ((hk_data rows hk).filter (fun r => r.sample == s)).map Row.ct

/-- Model of the aggregation lambda of line 43:
`np.exp(np.mean(np.log(x.dropna())))` for `Geometric Mean`, else `np.mean(x)`
(which is the NaN-skipping `Series.mean`). -/
noncomputable def aggregate (mode : AggMode) (l : List RVal) : RVal :=
  match mode with
  | .geometricMean => npExp (seriesMean ((dropna l).map npLog))
  | .individualMean => seriesMean l

/-- Model of lines 42-44 plus the join of line 46: the per-sample reference
value.  A sample with no reference-gene row at all gets NaN from the join. -/
noncomputable def hk_means (rows : List Row) (hk : List String) (mode : AggMode) (s : String) : RVal :=
  if (hkCts rows hk s).isEmpty then .nan else aggregate mode (hkCts rows hk s)

/-- Newline test (the regex dot does not match a newline). -/
def isNLCh (c : Char) : Bool := c.toNat = 10

/-- Match of the tail pattern of the regex of line 50 on `t`: one or more
whitespace characters followed by one or more digits reaching the end of
the string; returns the digit group. -/
def wsDigits (t : List Char) : Option (List Char) :=
  if (t.takeWhile isSpaceCh).isEmpty then none
  else if (t.dropWhile isSpaceCh).isEmpty then none
  else if (t.dropWhile isSpaceCh).all isDigitCh then some (t.dropWhile isSpaceCh) else none

/-- One attempt of the regex `(.*)\s+(\d+)$` with the dot-star group taking
characters `s0` to `s0 + k` (and the dot refusing newlines). -/
def tryAt (s : List Char) (s0 k : ℕ) : Option (List Char × List Char) :=
  if ((s.drop s0).take k).all (fun c => !isNLCh c) then
    match wsDigits (s.drop (s0 + k)) with
    | some d => some ((s.drop s0).take k, d)
    | none => none
  else none

/-- Match of the full pattern starting at position `s0`, with the greedy
dot-star trying the longest capture first. -/
def searchFrom (s : List Char) (s0 : ℕ) : Option (List Char × List Char) :=
  ((List.range (s.length + 1 - s0)).reverse).findSome? (fun k => tryAt s s0 k)

/-- Model of line 50, `Series.str.extract(r'(.*)\s+(\d+)$')`: the first
(leftmost) regex match, returning the condition and replicate groups, or
none (pandas NaN) when the name does not match. -/
def searchExtract (s : List Char) : Option (List Char × List Char) :=
  (List.range (s.length + 1)).findSome? (fun s0 => searchFrom s s0)

/-- A joined row of the normalized table (lines 46-50): the original fields
plus `HK_mean`, `ΔCt`, `Expression (2^-ΔCt)`, `Condition` and `Replicate`. -/
structure NRow where
  well : String
  sample : String
  target : String
  ct : RVal
  hk : RVal
  dct : RVal
  expr : RVal
  cond : Option String
  rep : Option String

/-- Build the joined row for one input row: join the per-sample reference
(line 46), subtract (line 47), exponentiate (line 48), and extract the
condition/replicate labels (line 50). -/
noncomputable def joinRow (rows : List Row) (hk : List String) (mode : AggMode) (r : Row) : NRow :=
  let h := hk_means rows hk mode r.sample
  let d := rsub r.ct h
  let lbl := searchExtract r.sample.data
  ⟨r.well, r.sample, r.target, r.ct, h, d, rpow2neg d,
    lbl.map (fun pr => String.mk pr.1), lbl.map (fun pr => String.mk pr.2)⟩

/-- The joined `results` table after lines 46-50, one row per input row. -/
noncomputable def joinedResults (rows : List Row) (hk : List String) (mode : AggMode) : List NRow :=
  rows.map (joinRow rows hk mode)

/-- Model of line 52:
`results[results['Target Name'].isin(genes_of_interest)].dropna(subset=['Expression (2^-ΔCt)'])`. -/
noncomputable def plot_data (rows : List Row) (hk goi : List String) (mode : AggMode) : List NRow :=
  (joinedResults rows hk mode).filter (fun n => goi.contains n.target && !n.expr.isNan)

/-- Model of line 138: the rows serialized into `normalized_csv` are the
full joined `results` table, with no filtering at all. -/
noncomputable def normalized_csv_rows (rows : List Row) (hk : List String) (mode : AggMode) : List NRow :=
  joinedResults rows hk mode

/-- Model of the pandas sample standard deviation used by
`.agg(['mean','std'])` on line 69: NaN entries are skipped (`skipna`),
a group with fewer than two remaining values gives NaN (`ddof=1`), and any
infinity gives NaN. -/
noncomputable def pdStd (l : List RVal) : RVal :=
  if (dropna l).length < 2 then .nan
  else if (dropna l).any RVal.isPinf || (dropna l).any RVal.isNinf then .nan
  else .fin (Real.sqrt (((finVals (dropna l)).map
    (fun x => (x - (finVals (dropna l)).sum / ((dropna l).length : ℝ)) ^ 2)).sum /
      (((dropna l).length : ℝ) - 1)))

/-- The rows of one `(gene, condition)` group of line 69: `gene_data`
restricted to one condition.  `groupby('Condition')` drops rows whose
condition is missing, which the `some` comparison reproduces. -/
noncomputable def summaryGroup (rows : List Row) (hk goi : List String) (mode : AggMode)
    (gene cond : String) : List NRow :=
  ((plot_data rows hk goi mode).filter (fun n => n.target == gene)).filter
    (fun n => n.cond == some cond)

/-- Model of line 69 for one `(gene, condition)` pair: the mean and sample
standard deviation of the Expression values of the group. -/
noncomputable def summaryRow (rows : List Row) (hk goi : List String) (mode : AggMode)
    (gene cond : String) : RVal × RVal :=
  (seriesMean ((summaryGroup rows hk goi mode gene cond).map NRow.expr),
   pdStd ((summaryGroup rows hk goi mode gene cond).map NRow.expr))

/-- A float-like value that is a finite real or NaN (what CT coercion
produces for every realistic cell). -/
def finOrNan (v : RVal) : Prop := v = .nan ∨ ∃ x : ℝ, v = .fin x

/-- The non-missing reference readings of one sample as (gene, value)
pairs, in row order. -/
def hkFinPairs (rows : List Row) (hk : List String) (s : String) : List (String × ℝ) :=
  ((hk_data rows hk).filter (fun r => r.sample == s)).filterMap
    (fun r => match r.ct with | .fin x => some (r.target, x) | _ => none)

/-- Modelled from the spec, for comparison with the code: the aggregation
policy of section 4.2 under `arithmetic-mean`, which first averages the
non-missing wells within each distinct reference gene and then takes the
unweighted mean over the distinct genes. -/
noncomputable def specPerGeneArithMean (rows : List Row) (hk : List String) (s : String) : RVal :=
  if (((hkFinPairs rows hk s).map Prod.fst).dedup).isEmpty then .nan
  else .fin (((((hkFinPairs rows hk s).map Prod.fst).dedup).map (fun g =>
      (((hkFinPairs rows hk s).filter (fun p => p.1 == g)).map Prod.snd).sum /
        ((((hkFinPairs rows hk s).filter (fun p => p.1 == g)).map Prod.snd).length : ℝ))).sum /
    ((((hkFinPairs rows hk s).map Prod.fst).dedup).length : ℝ))

lemma rpow2neg_eq_nan_iff (v : RVal) : rpow2neg v = .nan ↔ v = .nan := by
  cases v <;> simp [rpow2neg]

lemma rsub_ne_nan {a b : RVal} (h : rsub a b ≠ .nan) : a ≠ .nan ∧ b ≠ .nan := by
  cases a <;> cases b <;> simp [rsub] at h ⊢

lemma mem_dropna {v : RVal} {l : List RVal} : v ∈ dropna l ↔ v ∈ l ∧ v.isNan = false := by
  simp [dropna, List.mem_filter]

lemma finVals_dropna : ∀ l : List RVal, finVals (dropna l) = finVals l := by
  intro l
  induction l with
  | nil => rfl
  | cons v t ih =>
    cases v <;>
      simp only [dropna, finVals, List.filter_cons, List.filterMap_cons, RVal.isNan] at ih ⊢ <;>
      simp [ih]

lemma seriesMean_congr {l₁ l₂ : List RVal} (h : dropna l₁ = dropna l₂) :
    seriesMean l₁ = seriesMean l₂ := by
  unfold seriesMean
  rw [h]

lemma isEmpty_eq_of_perm {α : Type} {l l' : List α} (h : l.Perm l') :
    l.isEmpty = l'.isEmpty := by
  have := h.length_eq
  cases l <;> cases l' <;> simp_all

lemma any_eq_of_perm {α : Type} (p : α → Bool) {l l' : List α} (h : l.Perm l') :
    l.any p = l'.any p := by
  cases ha : l.any p <;> cases hb : l'.any p <;> try rfl
  · rw [List.any_eq_true] at hb
    rcases hb with ⟨x, hx, hp⟩
    have hc : l.any p = true := List.any_eq_true.mpr ⟨x, h.mem_iff.mpr hx, hp⟩
    rw [ha] at hc
    cases hc
  · rw [List.any_eq_true] at ha
    rcases ha with ⟨x, hx, hp⟩
    have hc : l'.any p = true := List.any_eq_true.mpr ⟨x, h.mem_iff.mp hx, hp⟩
    rw [hb] at hc
    cases hc

lemma seriesMean_perm {l l' : List RVal} (h : l.Perm l') : seriesMean l = seriesMean l' := by
  have hk : (dropna l).Perm (dropna l') := h.filter _
  have h1 : (finVals (dropna l)).sum = (finVals (dropna l')).sum := (hk.filterMap _).sum_eq
  have h2 : (dropna l).length = (dropna l').length := hk.length_eq
  unfold seriesMean
  rw [isEmpty_eq_of_perm hk, any_eq_of_perm _ hk, any_eq_of_perm _ hk]
  rw [show finVals (dropna l) = List.filterMap (fun v => match v with | .fin x => some x | _ => none) (dropna l) from rfl] at h1
  rw [show finVals (dropna l') = List.filterMap (fun v => match v with | .fin x => some x | _ => none) (dropna l') from rfl] at h1
  simp only [finVals]
  rw [h1, h2]

lemma dropna_eq_nil_of_allnan {l : List RVal} (h : ∀ v ∈ l, v = .nan) : dropna l = [] := by
  apply List.filter_eq_nil_iff.mpr
  intro v hv
  rw [h v hv]
  simp [RVal.isNan]

lemma seriesMean_of_dropna_nil {l : List RVal} (h : dropna l = []) : seriesMean l = .nan := by
  unfold seriesMean
  rw [h]
  rfl

lemma aggregate_allnan {l : List RVal} (mode : AggMode) (h : ∀ v ∈ l, v = .nan) :
    aggregate mode l = .nan := by
  cases mode with
  | individualMean => exact seriesMean_of_dropna_nil (dropna_eq_nil_of_allnan h)
  | geometricMean =>
    unfold aggregate
    rw [dropna_eq_nil_of_allnan h, List.map_nil,
      seriesMean_of_dropna_nil (@rfl _ (dropna []))]
    rfl

lemma not_pinf_of_finOrNan {v : RVal} (h : finOrNan v) : v.isPinf = false := by
  rcases h with h | ⟨x, h⟩ <;> subst h <;> rfl

lemma not_ninf_of_finOrNan {v : RVal} (h : finOrNan v) : v.isNinf = false := by
  rcases h with h | ⟨x, h⟩ <;> subst h <;> rfl

lemma any_isPinf_false {l : List RVal} (h : ∀ v ∈ l, v.isPinf = false) :
    l.any RVal.isPinf = false := by
  cases ha : l.any RVal.isPinf
  · rfl
  · rw [List.any_eq_true] at ha
    rcases ha with ⟨v, hv, hp⟩
    rw [h v hv] at hp
    cases hp

lemma any_isNinf_false {l : List RVal} (h : ∀ v ∈ l, v.isNinf = false) :
    l.any RVal.isNinf = false := by
  cases ha : l.any RVal.isNinf
  · rfl
  · rw [List.any_eq_true] at ha
    rcases ha with ⟨v, hv, hp⟩
    rw [h v hv] at hp
    cases hp

lemma seriesMean_finOrNan {l : List RVal} (h : ∀ v ∈ l, finOrNan v) :
    finOrNan (seriesMean l) := by
  unfold seriesMean
  have hp : (dropna l).any RVal.isPinf = false :=
    any_isPinf_false (fun v hv => not_pinf_of_finOrNan (h v (mem_dropna.mp hv).1))
  have hn : (dropna l).any RVal.isNinf = false :=
    any_isNinf_false (fun v hv => not_ninf_of_finOrNan (h v (mem_dropna.mp hv).1))
  rw [hp, hn]
  by_cases he : (dropna l).isEmpty
  · rw [if_pos he]
    exact Or.inl rfl
  · rw [if_neg he]
    simp only [Bool.false_and, if_neg]
    exact Or.inr ⟨_, rfl⟩

lemma seriesMean_no_pinf {l : List RVal} (h : ∀ v ∈ l, v.isPinf = false) :
    (seriesMean l).isPinf = false := by
  unfold seriesMean
  have hp : (dropna l).any RVal.isPinf = false :=
    any_isPinf_false (fun v hv => h v (mem_dropna.mp hv).1)
  rw [hp]
  by_cases he : (dropna l).isEmpty
  · rw [if_pos he]; rfl
  · rw [if_neg he]
    simp only [Bool.false_and, if_neg]
    by_cases hn : (dropna l).any RVal.isNinf = true
    · rw [if_pos hn]; rfl
    · rw [if_neg hn]; rfl

lemma npExp_finOrNan_of_no_pinf {v : RVal} (h : v.isPinf = false) : finOrNan (npExp v) := by
  cases v with
  | fin x => exact Or.inr ⟨_, rfl⟩
  | pinf => cases h
  | ninf => exact Or.inr ⟨0, rfl⟩
  | nan => exact Or.inl rfl

lemma npLog_not_pinf_of_finOrNan {v : RVal} (h : finOrNan v) : (npLog v).isPinf = false := by
  rcases h with h | ⟨x, h⟩ <;> subst h
  · rfl
  · simp only [npLog]
    split
    · rfl
    · split <;> rfl

lemma mem_hkCts_finOrNan {rows : List Row} {hk : List String} {s : String}
    (h : ∀ r ∈ rows, finOrNan r.ct) : ∀ v ∈ hkCts rows hk s, finOrNan v := by
  intro v hv
  simp only [hkCts, hk_data, List.mem_map, List.mem_filter] at hv
  rcases hv with ⟨r, ⟨⟨hr, _⟩, _⟩, rfl⟩
  exact h r hr

lemma hk_means_finOrNan {rows : List Row} {hk : List String} {mode : AggMode} {s : String}
    (h : ∀ r ∈ rows, finOrNan r.ct) : finOrNan (hk_means rows hk mode s) := by
  unfold hk_means
  by_cases he : (hkCts rows hk s).isEmpty
  · rw [if_pos he]; exact Or.inl rfl
  · rw [if_neg he]
    have hcts := @mem_hkCts_finOrNan rows hk s h
    cases mode with
    | individualMean => exact seriesMean_finOrNan hcts
    | geometricMean =>
      apply npExp_finOrNan_of_no_pinf
      apply seriesMean_no_pinf
      intro v hv
      rcases List.mem_map.mp hv with ⟨w, hw, rfl⟩
      exact npLog_not_pinf_of_finOrNan (hcts w (mem_dropna.mp hw).1)

lemma mem_plot_data {rows : List Row} {hk goi : List String} {mode : AggMode} {n : NRow} :
    n ∈ plot_data rows hk goi mode ↔
      ∃ r ∈ rows, n = joinRow rows hk mode r ∧ goi.contains n.target = true ∧
        n.expr.isNan = false := by
  simp only [plot_data, joinedResults, List.mem_filter, List.mem_map]
  constructor
  · rintro ⟨⟨r, hr, rfl⟩, hpred⟩
    rw [Bool.and_eq_true] at hpred
    rcases hpred with ⟨h1, h2⟩
    rw [Bool.not_eq_true'] at h2
    exact ⟨r, hr, rfl, h1, h2⟩
  · rintro ⟨r, hr, rfl, h1, h2⟩
    refine ⟨⟨r, hr, rfl⟩, ?_⟩
    rw [Bool.and_eq_true, Bool.not_eq_true']
    exact ⟨h1, h2⟩

lemma plot_data_fields {rows : List Row} {hk goi : List String} {mode : AggMode} {n : NRow}
    (h1 : ∀ r ∈ rows, finOrNan r.ct) (hn : n ∈ plot_data rows hk goi mode) :
    ∃ c k : ℝ, n.ct = .fin c ∧ n.hk = .fin k ∧ n.dct = .fin (c - k) ∧
      n.expr = .fin ((2 : ℝ) ^ (-(c - k))) := by
  rcases mem_plot_data.mp hn with ⟨r, hr, rfl, hg, he⟩
  have hdnan : (joinRow rows hk mode r).dct ≠ .nan := by
    intro hd
    have hexpr : (joinRow rows hk mode r).expr = rpow2neg (joinRow rows hk mode r).dct := rfl
    rw [hexpr, hd] at he
    simp [rpow2neg, RVal.isNan] at he
  have hboth : r.ct ≠ .nan ∧ hk_means rows hk mode r.sample ≠ .nan := rsub_ne_nan hdnan
  rcases h1 r hr with hcn | ⟨c, hc⟩
  · exact absurd hcn hboth.1
  rcases @hk_means_finOrNan rows hk mode r.sample h1 with hkn | ⟨k, hkv⟩
  · exact absurd hkn hboth.2
  refine ⟨c, k, ?_, ?_, ?_, ?_⟩
  · exact hc
  · exact hkv
  · show rsub r.ct (hk_means rows hk mode r.sample) = .fin (c - k)
    rw [hc, hkv]
    rfl
  · show rpow2neg (rsub r.ct (hk_means rows hk mode r.sample)) = .fin ((2 : ℝ) ^ (-(c - k)))
    rw [hc, hkv]
    rfl

lemma hkCts_perm {rows rows' : List Row} {hk : List String} {s : String}
    (h : rows.Perm rows') : (hkCts rows hk s).Perm (hkCts rows' hk s) :=
  ((h.filter _).filter _).map _

lemma aggregate_perm (mode : AggMode) {l l' : List RVal} (h : l.Perm l') :
    aggregate mode l = aggregate mode l' := by
  cases mode with
  | individualMean => exact seriesMean_perm h
  | geometricMean =>
    unfold aggregate
    exact congrArg npExp (seriesMean_perm ((h.filter _).map _))

/-- C8: for every permutation of the input measurement rows and either
aggregation mode, the per-sample reference map computed by `hk_means` is
unchanged: aggregation does not depend on row iteration order. -/
theorem c8_reference_order_independent (rows rows' : List Row) (h : rows.Perm rows')
    (hk : List String) (mode : AggMode) (s : String) :
    hk_means rows hk mode s = hk_means rows' hk mode s := by
  have hp := @hkCts_perm rows rows' hk s h
  unfold hk_means
  rw [isEmpty_eq_of_perm hp]
  by_cases he : (hkCts rows' hk s).isEmpty = true
  · rw [if_pos he, if_pos he]
  · rw [if_neg he, if_neg he]
    exact aggregate_perm mode hp

/-- Witness for C8 at a concrete two-row dataset and its transposition. -/
theorem c8_witness :
    hk_means [⟨"w1", "S", "HK", .fin 20⟩, ⟨"w2", "S", "HK", .fin 24⟩] ["HK"]
        .individualMean "S"
      = hk_means [⟨"w2", "S", "HK", .fin 24⟩, ⟨"w1", "S", "HK", .fin 20⟩] ["HK"]
        .individualMean "S" :=
  c8_reference_order_independent _ _ (List.Perm.swap _ _ _) _ _ _

/-- C4 (amended): every row of the plotted normalized set has its target
among the genes of interest and none of CT, HK reference, ΔCt, Expression
missing; the CSV export, in contrast, retains every input row (whatever its
gene and even with missing values). -/
theorem c4_output_sets :
    (∀ (rows : List Row) (hk goi : List String) (mode : AggMode) (n : NRow),
        n ∈ plot_data rows hk goi mode →
          goi.contains n.target = true ∧ n.ct ≠ .nan ∧ n.hk ≠ .nan ∧ n.dct ≠ .nan ∧
            n.expr ≠ .nan)
    ∧ (∀ (rows : List Row) (hk : List String) (mode : AggMode) (r : Row), r ∈ rows →
        ∃ n ∈ normalized_csv_rows rows hk mode,
          n.well = r.well ∧ n.sample = r.sample ∧ n.target = r.target ∧ n.ct = r.ct) := by
  constructor
  · intro rows hk goi mode n hn
    rcases mem_plot_data.mp hn with ⟨r, hr, rfl, hg, he⟩
    have hexprne : (joinRow rows hk mode r).expr ≠ .nan := by
      intro h
      rw [h] at he
      simp [RVal.isNan] at he
    have hdct : (joinRow rows hk mode r).dct ≠ .nan := by
      intro hd
      apply hexprne
      show rpow2neg (joinRow rows hk mode r).dct = .nan
      rw [hd]
      rfl
    have hsub : r.ct ≠ .nan ∧ hk_means rows hk mode r.sample ≠ .nan := rsub_ne_nan hdct
    exact ⟨hg, hsub.1, hsub.2, hdct, hexprne⟩
  · intro rows hk mode r hr
    exact ⟨joinRow rows hk mode r, List.mem_map_of_mem _ hr, rfl, rfl, rfl, rfl⟩

/-- Concrete dataset for C4: one reference-gene row and one row of interest
with a missing CT. -/
def dataC4 : List Row := [⟨"w1", "S 1", "HK", .fin 20⟩, ⟨"w2", "S 1", "GA", .nan⟩]

/-- C4 counterexample: the CSV export contains a row whose target is not a
gene of interest, and a row whose CT is missing, so the exported set is not
restricted to fully computed target rows. -/
theorem c4_counterexample :
    (∃ n ∈ normalized_csv_rows dataC4 ["HK"] .individualMean,
      (["GA"] : List String).contains n.target = false)
    ∧ (∃ n ∈ normalized_csv_rows dataC4 ["HK"] .individualMean, n.ct = .nan) := by
  constructor
  · refine ⟨joinRow dataC4 ["HK"] .individualMean ⟨"w1", "S 1", "HK", .fin 20⟩,
      List.mem_map_of_mem _ (List.mem_cons_self _ _), ?_⟩
    rfl
  · exact ⟨joinRow dataC4 ["HK"] .individualMean ⟨"w2", "S 1", "GA", .nan⟩,
      List.mem_map_of_mem _ (List.mem_cons_of_mem _ (List.mem_cons_self _ _)), rfl⟩

/-- Witness for the first part of C4 at a concrete dataset. -/
def dataC4w : List Row := [⟨"w1", "S 1", "HK", .fin 20⟩, ⟨"w2", "S 1", "GA", .fin 25⟩]

/-- Witness for C4: the plotted row of a concrete dataset has its target in
the gene set and no missing field, and a concrete input row reappears in
the CSV export. -/
theorem c4_witness :
    ((["GA"] : List String).contains
        (joinRow dataC4w ["HK"] .individualMean ⟨"w2", "S 1", "GA", .fin 25⟩).target = true ∧
      (joinRow dataC4w ["HK"] .individualMean ⟨"w2", "S 1", "GA", .fin 25⟩).ct ≠ .nan ∧
      (joinRow dataC4w ["HK"] .individualMean ⟨"w2", "S 1", "GA", .fin 25⟩).hk ≠ .nan ∧
      (joinRow dataC4w ["HK"] .individualMean ⟨"w2", "S 1", "GA", .fin 25⟩).dct ≠ .nan ∧
      (joinRow dataC4w ["HK"] .individualMean ⟨"w2", "S 1", "GA", .fin 25⟩).expr ≠ .nan)
    ∧ ∃ n ∈ normalized_csv_rows dataC4w ["HK"] .individualMean,
        n.well = "w1" ∧ n.sample = "S 1" ∧ n.target = "HK" ∧ n.ct = .fin 20 := by
  constructor
  · apply c4_output_sets.1 dataC4w ["HK"] ["GA"] .individualMean
    apply mem_plot_data.mpr
    exact ⟨⟨"w2", "S 1", "GA", .fin 25⟩,
      List.mem_cons_of_mem _ (List.mem_cons_self _ _), rfl, rfl, rfl⟩
  · exact c4_output_sets.2 dataC4w ["HK"] .individualMean ⟨"w1", "S 1", "HK", .fin 20⟩
      (List.mem_cons_self _ _)

/-- Concrete dataset for C6: reference CT 20.0 and target CT 25.0 in one
sample. -/
def dataC6 : List Row := [⟨"w1", "S 1", "HK", .fin 20⟩, ⟨"w2", "S 1", "GA", .fin 25⟩]

lemma hk_means_dataC6 : hk_means dataC6 ["HK"] .individualMean "S 1" = .fin 20 := by
  have h0 : hk_means dataC6 ["HK"] .individualMean "S 1"
      = .fin (((20 : ℝ) + 0) / ((1 : ℕ) : ℝ)) := rfl
  rw [h0]
  norm_num

/-- C6: every row of the plotted normalized set satisfies
`ΔCt = CT - HK_mean` and `Expression = 2 ^ (-ΔCt)`; in particular, a row
with CT 25.0 against a reference of 20.0 gets `ΔCt = 5` and
`Expression = 1/32 = 0.03125`. -/
theorem c6_normalization_formulas :
    (∀ (rows : List Row) (hk goi : List String) (mode : AggMode) (n : NRow),
        (∀ r ∈ rows, finOrNan r.ct) → n ∈ plot_data rows hk goi mode →
          ∃ c k : ℝ, n.ct = .fin c ∧ n.hk = .fin k ∧ n.dct = .fin (c - k) ∧
            n.expr = .fin ((2 : ℝ) ^ (-(c - k))))
    ∧ (joinRow dataC6 ["HK"] .individualMean ⟨"w2", "S 1", "GA", .fin 25⟩).dct = .fin 5
    ∧ (joinRow dataC6 ["HK"] .individualMean ⟨"w2", "S 1", "GA", .fin 25⟩).expr
        = .fin (1 / 32) := by
  refine ⟨fun rows hk goi mode n h1 hn => plot_data_fields h1 hn, ?_, ?_⟩
  · show rsub (.fin 25) (hk_means dataC6 ["HK"] .individualMean "S 1") = .fin 5
    rw [hk_means_dataC6]
    show RVal.fin ((25 : ℝ) - 20) = RVal.fin 5
    norm_num
  · show rpow2neg (rsub (.fin 25) (hk_means dataC6 ["HK"] .individualMean "S 1")) = .fin (1 / 32)
    rw [hk_means_dataC6]
    show RVal.fin ((2 : ℝ) ^ (-((25 : ℝ) - 20))) = RVal.fin (1 / 32)
    have h1 : -((25 : ℝ) - 20) = ((-5 : ℤ) : ℝ) := by norm_num
    rw [h1, Real.rpow_intCast]
    norm_num

/-- Witness for C6: the general statement applied to the concrete dataset
`dataC6` at its row of interest. -/
theorem c6_witness :
    ∃ c k : ℝ,
      (joinRow dataC6 ["HK"] .individualMean ⟨"w2", "S 1", "GA", .fin 25⟩).ct = .fin c ∧
      (joinRow dataC6 ["HK"] .individualMean ⟨"w2", "S 1", "GA", .fin 25⟩).hk = .fin k ∧
      (joinRow dataC6 ["HK"] .individualMean ⟨"w2", "S 1", "GA", .fin 25⟩).dct = .fin (c - k) ∧
      (joinRow dataC6 ["HK"] .individualMean ⟨"w2", "S 1", "GA", .fin 25⟩).expr
        = .fin ((2 : ℝ) ^ (-(c - k))) := by
  apply c6_normalization_formulas.1 dataC6 ["HK"] ["GA"] .individualMean
  · intro r hr
    rcases List.mem_cons.mp hr with rfl | hr2
    · exact Or.inr ⟨20, rfl⟩
    rcases List.mem_cons.mp hr2 with rfl | hr3
    · exact Or.inr ⟨25, rfl⟩
    cases hr3
  · apply mem_plot_data.mpr
    exact ⟨⟨"w2", "S 1", "GA", .fin 25⟩,
      List.mem_cons_of_mem _ (List.mem_cons_self _ _), rfl, rfl, rfl⟩

/-- Concrete dataset for C10. -/
def dataC10 : List Row := [⟨"w1", "T 1", "HK", .fin 21⟩, ⟨"w2", "T 1", "GB", .fin 27⟩]

/-- C10: every row surviving into the plotted normalized set (non-missing
Expression) has a strictly positive Expression value. -/
theorem c10_expression_positive (rows : List Row) (hk goi : List String) (mode : AggMode)
    (h1 : ∀ r ∈ rows, finOrNan r.ct) :
    ∀ n ∈ plot_data rows hk goi mode, ∃ x : ℝ, n.expr = .fin x ∧ 0 < x := by
  intro n hn
  rcases plot_data_fields h1 hn with ⟨c, k, _, _, _, he⟩
  exact ⟨_, he, Real.rpow_pos_of_pos (by norm_num) _⟩

/-- Witness for C10 at a concrete dataset. -/
theorem c10_witness :
    ∃ x : ℝ,
      (joinRow dataC10 ["HK"] .individualMean ⟨"w2", "T 1", "GB", .fin 27⟩).expr = .fin x ∧
        0 < x := by
  apply c10_expression_positive dataC10 ["HK"] ["GB"] .individualMean
  · intro r hr
    rcases List.mem_cons.mp hr with rfl | hr2
    · exact Or.inr ⟨21, rfl⟩
    rcases List.mem_cons.mp hr2 with rfl | hr3
    · exact Or.inr ⟨27, rfl⟩
    cases hr3
  · apply mem_plot_data.mpr
    exact ⟨⟨"w2", "T 1", "GB", .fin 27⟩,
      List.mem_cons_of_mem _ (List.mem_cons_self _ _), rfl, rfl, rfl⟩


lemma bool_false_of_not_true {b : Bool} (h : ¬ b = true) : b = false := by
  cases b
  · rfl
  · exact absurd rfl h

lemma filter_filter_merge {a : Type} (p q : a → Bool) :
    ∀ l : List a, (l.filter p).filter q = l.filter (fun x => p x && q x) := by
  intro l
  induction l with
  | nil => rfl
  | cons x t ih =>
    by_cases hp : p x = true
    · by_cases hq : q x = true
      · simp [List.filter_cons, hp, hq, ih]
      · simp [List.filter_cons, hp, bool_false_of_not_true hq, ih]
    · simp [List.filter_cons, bool_false_of_not_true hp, ih]

lemma filter_filter_of_imp {a : Type} (P keep : a → Bool)
    (himp : ∀ x, P x = true → keep x = true) :
    ∀ l : List a, (l.filter keep).filter P = l.filter P := by
  intro l
  induction l with
  | nil => rfl
  | cons x t ih =>
    by_cases hk : keep x = true
    · by_cases hp : P x = true
      · simp [List.filter_cons, hk, hp, ih]
      · simp [List.filter_cons, hk, bool_false_of_not_true hp, ih]
    · have hp : P x = false := by
        cases hpa : P x
        · rfl
        · exact absurd (himp x hpa) hk
      simp [List.filter_cons, bool_false_of_not_true hk, hp, ih]

lemma hkCts_allnan {rows : List Row} {hk : List String} {s : String}
    (h : ∀ r ∈ rows, r.sample = s → hk.contains r.target = true → r.ct = .nan) :
    ∀ v ∈ hkCts rows hk s, v = .nan := by
  intro v hv
  simp only [hkCts, hk_data, List.mem_map, List.mem_filter] at hv
  rcases hv with ⟨r, ⟨⟨hr, hcont⟩, hsamp⟩, rfl⟩
  exact h r hr (by simpa using hsamp) hcont

lemma hk_means_eq_nan_of_allnan {rows : List Row} {hk : List String} {s : String}
    (mode : AggMode)
    (h : ∀ r ∈ rows, r.sample = s → hk.contains r.target = true → r.ct = .nan) :
    hk_means rows hk mode s = .nan := by
  unfold hk_means
  by_cases he : (hkCts rows hk s).isEmpty = true
  · rw [if_pos he]
  · rw [if_neg he]
    exact aggregate_allnan mode (hkCts_allnan h)

lemma hkCts_filter_sample_self {rows : List Row} {hk : List String} {s : String} :
    hkCts (rows.filter (fun r => !(r.sample == s))) hk s = [] := by
  unfold hkCts hk_data
  have hnil : ((rows.filter (fun r => !(r.sample == s))).filter
      (fun r => hk.contains r.target)).filter (fun r => r.sample == s) = [] := by
    apply List.filter_eq_nil_iff.mpr
    intro r hr
    rcases List.mem_filter.mp hr with ⟨hr2, _⟩
    rcases List.mem_filter.mp hr2 with ⟨_, hkeep⟩
    rw [Bool.not_eq_true'] at hkeep
    simp [hkeep]
  rw [hnil]
  rfl

lemma hkCts_filter_sample_other {rows : List Row} {hk : List String} {s s' : String}
    (hne : s' ≠ s) :
    hkCts (rows.filter (fun r => !(r.sample == s))) hk s' = hkCts rows hk s' := by
  have himp : ∀ r : Row,
      (hk.contains r.target && (r.sample == s')) = true → (!(r.sample == s)) = true := by
    intro r hr
    rw [Bool.and_eq_true] at hr
    have hs' : r.sample = s' := by simpa using hr.2
    rw [Bool.not_eq_true']
    simp [hs', hne]
  unfold hkCts hk_data
  rw [filter_filter_merge (fun r => hk.contains r.target) (fun r => r.sample == s')
    (rows.filter (fun r => !(r.sample == s)))]
  rw [filter_filter_merge (fun r => hk.contains r.target) (fun r => r.sample == s') rows]
  rw [filter_filter_of_imp (fun r => hk.contains r.target && (r.sample == s'))
    (fun r => !(r.sample == s)) himp rows]

lemma hk_means_filter_sample {rows : List Row} {hk : List String} {s : String}
    (mode : AggMode)
    (h : ∀ r ∈ rows, r.sample = s → hk.contains r.target = true → r.ct = .nan) :
    ∀ s', hk_means rows hk mode s'
      = hk_means (rows.filter (fun r => !(r.sample == s))) hk mode s' := by
  intro s'
  by_cases hs : s' = s
  · subst hs
    rw [hk_means_eq_nan_of_allnan mode h]
    unfold hk_means
    rw [hkCts_filter_sample_self]
    rfl
  · unfold hk_means
    rw [hkCts_filter_sample_other hs]

lemma joinRow_filter_sample {rows : List Row} {hk : List String} {s : String}
    (mode : AggMode)
    (h : ∀ r ∈ rows, r.sample = s → hk.contains r.target = true → r.ct = .nan) :
    ∀ r, joinRow rows hk mode r
      = joinRow (rows.filter (fun r => !(r.sample == s))) hk mode r := by
  intro r
  unfold joinRow
  rw [hk_means_filter_sample mode h r.sample]

lemma filterMap_drop {a b : Type} (P : b → Bool) (f : a → b) (keep : a → Bool)
    (hdrop : ∀ x, keep x = false → P (f x) = false) :
    ∀ l : List a, (l.map f).filter P = ((l.filter keep).map f).filter P := by
  intro l
  induction l with
  | nil => rfl
  | cons x t ih =>
    by_cases hk : keep x = true
    · by_cases hp : P (f x) = true
      · simp [List.filter_cons, hk, hp, ih]
      · simp [List.filter_cons, hk, bool_false_of_not_true hp, ih]
    · have hkf : keep x = false := bool_false_of_not_true hk
      simp [List.filter_cons, hkf, hdrop x hkf, ih]

lemma rsub_nan_right (v : RVal) : rsub v .nan = .nan := by
  cases v <;> rfl

/-- C7: if a sample has no non-missing reference reading, its rows are
silently excluded from the plotted normalized set, and removing that sample
from the input does not change the output for the remaining samples. -/
theorem c7_missing_reference_sample (rows : List Row) (hk goi : List String)
    (mode : AggMode) (s : String)
    (h : ∀ r ∈ rows, r.sample = s → hk.contains r.target = true → r.ct = .nan) :
    plot_data rows hk goi mode
        = plot_data (rows.filter (fun r => !(r.sample == s))) hk goi mode
      ∧ ∀ n ∈ plot_data rows hk goi mode, n.sample ≠ s := by
  have hdrop : ∀ r : Row, (!(r.sample == s)) = false →
      (goi.contains (joinRow (rows.filter (fun r => !(r.sample == s))) hk mode r).target &&
        !(joinRow (rows.filter (fun r => !(r.sample == s))) hk mode r).expr.isNan) = false := by
    intro r hkeep
    rw [Bool.not_eq_false'] at hkeep
    have hsamp : r.sample = s := by simpa using hkeep
    have hmnan : hk_means (rows.filter (fun r => !(r.sample == s))) hk mode r.sample = .nan := by
      rw [hsamp]
      unfold hk_means
      rw [hkCts_filter_sample_self]
      rfl
    have hexpr : (joinRow (rows.filter (fun r => !(r.sample == s))) hk mode r).expr = .nan := by
      show rpow2neg (rsub r.ct
        (hk_means (rows.filter (fun r => !(r.sample == s))) hk mode r.sample)) = .nan
      rw [hmnan, rsub_nan_right]
      rfl
    rw [hexpr]
    simp [RVal.isNan]
  have hmain : plot_data rows hk goi mode
      = plot_data (rows.filter (fun r => !(r.sample == s))) hk goi mode := by
    unfold plot_data joinedResults
    rw [List.map_congr_left (fun r _ => joinRow_filter_sample mode h r)]
    exact filterMap_drop _ _ _ hdrop rows
  refine ⟨hmain, ?_⟩
  intro n hn
  rw [hmain] at hn
  rcases mem_plot_data.mp hn with ⟨r, hr, rfl, _, _⟩
  rcases List.mem_filter.mp hr with ⟨_, hkeep⟩
  show r.sample ≠ s
  intro hcontra
  rw [hcontra] at hkeep
  simp at hkeep

/-- Concrete dataset for the C7 witness: sample `S 1` has only a missing
reference reading, sample `T 1` is complete. -/
def dataC7 : List Row :=
  [⟨"w1", "S 1", "HK", .nan⟩, ⟨"w2", "S 1", "GA", .fin 25⟩,
   ⟨"w3", "T 1", "HK", .fin 20⟩, ⟨"w4", "T 1", "GA", .fin 24⟩]

/-- Witness for C7: applying the theorem to `dataC7`. -/
theorem c7_witness :
    plot_data dataC7 ["HK"] ["GA"] .individualMean
      = plot_data (dataC7.filter (fun r => !(r.sample == "S 1"))) ["HK"] ["GA"]
        .individualMean := by
  apply (c7_missing_reference_sample dataC7 ["HK"] ["GA"] .individualMean "S 1" ?_).1
  intro r hr h1 h2
  rcases List.mem_cons.mp hr with rfl | hr
  · rfl
  rcases List.mem_cons.mp hr with rfl | hr
  · exact absurd h2 (by decide)
  rcases List.mem_cons.mp hr with rfl | hr
  · exact absurd h1 (by decide)
  rcases List.mem_cons.mp hr with rfl | hr
  · exact absurd h1 (by decide)
  cases hr

/-- C3 (amended): a `(gene, condition)` group with exactly one plotted row
gets a NaN standard deviation from the pandas sample std (`ddof=1`), not 0. -/
theorem c3_singleton_std (rows : List Row) (hk goi : List String) (mode : AggMode)
    (gene cond : String)
    (h : (summaryGroup rows hk goi mode gene cond).length = 1) :
    (summaryRow rows hk goi mode gene cond).2 = .nan := by
  have h2 : (dropna ((summaryGroup rows hk goi mode gene cond).map NRow.expr)).length < 2 := by
    unfold dropna
    have h3 := List.length_filter_le (fun v => !v.isNan)
      ((summaryGroup rows hk goi mode gene cond).map NRow.expr)
    rw [List.length_map, h] at h3
    omega
  show pdStd ((summaryGroup rows hk goi mode gene cond).map NRow.expr) = .nan
  unfold pdStd
  rw [if_pos h2]

/-- Concrete dataset for C3: one complete sample, so the `(GA, Ctrl)` group
has exactly one row. -/
def dataC3 : List Row := [⟨"w1", "Ctrl 1", "HK", .fin 20⟩, ⟨"w2", "Ctrl 1", "GA", .fin 25⟩]

/-- C3 counterexample: a group of size exactly 1 whose standard deviation is
not the number 0 (it is NaN). -/
theorem c3_counterexample :
    (summaryGroup dataC3 ["HK"] ["GA"] .individualMean "GA" "Ctrl").length = 1
    ∧ (summaryRow dataC3 ["HK"] ["GA"] .individualMean "GA" "Ctrl").2 ≠ .fin 0 := by
  have hlen : (summaryGroup dataC3 ["HK"] ["GA"] .individualMean "GA" "Ctrl").length = 1 := by
    decide
  refine ⟨hlen, ?_⟩
  have h2 : (dropna ((summaryGroup dataC3 ["HK"] ["GA"] .individualMean "GA" "Ctrl").map
      NRow.expr)).length < 2 := by
    unfold dropna
    have h3 := List.length_filter_le (fun v => !v.isNan)
      ((summaryGroup dataC3 ["HK"] ["GA"] .individualMean "GA" "Ctrl").map NRow.expr)
    rw [List.length_map, hlen] at h3
    omega
  have h1 : (summaryRow dataC3 ["HK"] ["GA"] .individualMean "GA" "Ctrl").2 = .nan := by
    show pdStd ((summaryGroup dataC3 ["HK"] ["GA"] .individualMean "GA" "Ctrl").map
      NRow.expr) = .nan
    unfold pdStd
    rw [if_pos h2]
  rw [h1]
  intro hc
  exact RVal.noConfusion hc

/-- Witness for C3: the amended statement applied to `dataC3`. -/
theorem c3_witness :
    (summaryRow dataC3 ["HK"] ["GA"] .individualMean "GA" "Ctrl").2 = .nan :=
  c3_singleton_std dataC3 ["HK"] ["GA"] .individualMean "GA" "Ctrl" (by decide)

lemma seriesMean_finite {l : List RVal} (h : ∀ v ∈ l, finOrNan v) (hne : dropna l ≠ []) :
    seriesMean l = .fin ((finVals l).sum / ((dropna l).length : ℝ)) := by
  unfold seriesMean
  rw [if_neg (by simpa [List.isEmpty_iff] using hne)]
  have hp : (dropna l).any RVal.isPinf = false :=
    any_isPinf_false (fun v hv => not_pinf_of_finOrNan (h v (mem_dropna.mp hv).1))
  have hn : (dropna l).any RVal.isNinf = false :=
    any_isNinf_false (fun v hv => not_ninf_of_finOrNan (h v (mem_dropna.mp hv).1))
  rw [hp, hn]
  simp [finVals_dropna]

lemma rows_finVals_pairs :
    ∀ L : List Row, (∀ r ∈ L, finOrNan r.ct) →
      finVals (L.map Row.ct)
          = (L.filterMap (fun r => match r.ct with
              | .fin x => some (r.target, x) | _ => none)).map Prod.snd
        ∧ (dropna (L.map Row.ct)).length
          = (L.filterMap (fun r => match r.ct with
              | .fin x => some (r.target, x) | _ => none)).length := by
  intro L
  induction L with
  | nil => exact fun _ => ⟨rfl, rfl⟩
  | cons r t ih =>
    intro h
    have hr := h r (List.mem_cons_self _ _)
    have iht := ih (fun x hx => h x (List.mem_cons_of_mem _ hx))
    rcases hr with hnan | ⟨x, hx⟩
    · constructor
      · simpa [List.map_cons, List.filterMap_cons, finVals, hnan] using iht.1
      · simpa [List.map_cons, List.filterMap_cons, dropna, List.filter_cons, hnan,
          RVal.isNan] using iht.2
    · constructor
      · simpa [List.map_cons, List.filterMap_cons, finVals, hx] using iht.1
      · simpa [List.map_cons, List.filterMap_cons, dropna, List.filter_cons, hx,
          RVal.isNan] using iht.2

lemma map_filter_singleton_mean :
    ∀ ps : List (String × ℝ), (ps.map Prod.fst).Nodup →
      (ps.map Prod.fst).map (fun g =>
        ((ps.filter (fun p => p.1 == g)).map Prod.snd).sum /
          ((((ps.filter (fun p => p.1 == g)).map Prod.snd).length : ℕ) : ℝ))
        = ps.map Prod.snd := by
  intro ps
  induction ps with
  | nil => intro _; rfl
  | cons q t ih =>
    intro h
    rw [List.map_cons, List.map_cons, List.map_cons]
    rw [List.map_cons, List.nodup_cons] at h
    rcases h with ⟨hq, hnd⟩
    have hqf : (q :: t).filter (fun p => p.1 == q.1) = [q] := by
      rw [List.filter_cons]
      have ht : t.filter (fun p => p.1 == q.1) = [] := by
        apply List.filter_eq_nil_iff.mpr
        intro p hp hpq
        exact hq (List.mem_map.mpr ⟨p, hp, by simpa using hpq⟩)
      simp [ht]
    have hhead : ((( (q :: t).filter (fun p => p.1 == q.1)).map Prod.snd).sum /
        (((((q :: t).filter (fun p => p.1 == q.1)).map Prod.snd).length : ℕ) : ℝ)) = q.2 := by
      rw [hqf]
      simp
    rw [hhead]
    congr 1
    have hcong : ∀ g ∈ t.map Prod.fst,
        (((q :: t).filter (fun p => p.1 == g)).map Prod.snd).sum /
            (((((q :: t).filter (fun p => p.1 == g)).map Prod.snd).length : ℕ) : ℝ)
          = ((t.filter (fun p => p.1 == g)).map Prod.snd).sum /
            ((((t.filter (fun p => p.1 == g)).map Prod.snd).length : ℕ) : ℝ) := by
      intro g hg
      have hne : (q.1 == g) = false := by
        rcases List.mem_map.mp hg with ⟨p, hp, rfl⟩
        by_cases hqp : q.1 = p.1
        · exact absurd (List.mem_map.mpr ⟨p, hp, hqp.symm⟩) hq
        · simpa using hqp
      rw [List.filter_cons, hne]
      simp
    rw [List.map_congr_left hcong]
    exact ih hnd

/-- C1 (amended): the arithmetic (`Individual Mean`) aggregation pools all
non-missing wells of the sample across the reference genes, so each well
(not each gene) contributes once; it agrees with the per-gene pre-averaging
policy of the spec exactly when every reference gene has at most one
non-missing well for the sample. -/
theorem c1_arith_pools_wells (rows : List Row) (hk : List String) (s : String)
    (h1 : ∀ r ∈ rows, finOrNan r.ct)
    (h2 : ((hkFinPairs rows hk s).map Prod.fst).Nodup) :
    hk_means rows hk .individualMean s = specPerGeneArithMean rows hk s := by
  have hLmem : ∀ r ∈ (hk_data rows hk).filter (fun r => r.sample == s), finOrNan r.ct := by
    intro r hr
    rcases List.mem_filter.mp hr with ⟨hr2, _⟩
    rcases List.mem_filter.mp hr2 with ⟨hr3, _⟩
    exact h1 r hr3
  obtain ⟨hfv, hlen⟩ :=
    rows_finVals_pairs ((hk_data rows hk).filter (fun r => r.sample == s)) hLmem
  have e1 : hkCts rows hk s
      = ((hk_data rows hk).filter (fun r => r.sample == s)).map Row.ct := rfl
  have e2 : hkFinPairs rows hk s
      = ((hk_data rows hk).filter (fun r => r.sample == s)).filterMap
        (fun r => match r.ct with | .fin x => some (r.target, x) | _ => none) := rfl
  rw [← e1, ← e2] at hfv hlen
  unfold hk_means specPerGeneArithMean
  by_cases hB : dropna (hkCts rows hk s) = []
  · have hpairs : hkFinPairs rows hk s = [] := by
      apply List.length_eq_zero.mp
      rw [← hlen, hB]
      rfl
    have hLnan : (if (hkCts rows hk s).isEmpty = true then RVal.nan
        else aggregate .individualMean (hkCts rows hk s)) = RVal.nan := by
      by_cases he : (hkCts rows hk s).isEmpty = true
      · rw [if_pos he]
      · rw [if_neg he]
        exact seriesMean_of_dropna_nil hB
    rw [hLnan, hpairs]
    simp
  · have hcne : ¬ (hkCts rows hk s).isEmpty = true := by
      rw [List.isEmpty_iff]
      intro hnil
      rw [e1] at hnil
      rw [← e1] at hnil
      rw [hnil] at hB
      exact hB rfl
    rw [if_neg hcne]
    have hL2 : aggregate .individualMean (hkCts rows hk s)
        = .fin (((hkFinPairs rows hk s).map Prod.snd).sum
          / (((hkFinPairs rows hk s).length : ℕ) : ℝ)) := by
      show seriesMean (hkCts rows hk s) = _
      rw [seriesMean_finite (mem_hkCts_finOrNan h1) hB]
      rw [hfv, hlen]
    rw [hL2]
    have hpne : hkFinPairs rows hk s ≠ [] := by
      intro hnil
      apply hB
      apply List.length_eq_zero.mp
      rw [hlen, hnil]
      rfl
    rw [List.dedup_eq_self.mpr h2]
    have hgne : ¬ ((hkFinPairs rows hk s).map Prod.fst).isEmpty = true := by
      rw [List.isEmpty_iff, List.map_eq_nil_iff]
      exact hpne
    rw [if_neg hgne]
    rw [map_filter_singleton_mean (hkFinPairs rows hk s) h2, List.length_map]

/-- Concrete dataset for C1: gene HK1 has two replicate wells (CT 10, 10),
gene HK2 has one well (CT 40), all in sample S. -/
def dataC1 : List Row :=
  [⟨"w1", "S", "HK1", .fin 10⟩, ⟨"w2", "S", "HK1", .fin 10⟩, ⟨"w3", "S", "HK2", .fin 40⟩]

lemma dataC1_code : hk_means dataC1 ["HK1", "HK2"] .individualMean "S"
    = .fin (((10 : ℝ) + (10 + (40 + 0))) / ((3 : ℕ) : ℝ)) := rfl

lemma dataC1_spec : specPerGeneArithMean dataC1 ["HK1", "HK2"] "S"
    = .fin (((((10 : ℝ) + (10 + 0)) / ((2 : ℕ) : ℝ)) + (((40 : ℝ) + 0) / ((1 : ℕ) : ℝ) + 0))
      / ((2 : ℕ) : ℝ)) := rfl

/-- C1 counterexample: with duplicate wells for HK1, the code pools all
three wells (mean 20) while the per-gene policy of the claim gives 25, so
the code does not pre-average within genes. -/
theorem c1_counterexample :
    hk_means dataC1 ["HK1", "HK2"] .individualMean "S"
      ≠ specPerGeneArithMean dataC1 ["HK1", "HK2"] "S" := by
  rw [dataC1_code, dataC1_spec]
  intro h
  injection h with h2
  norm_num at h2

/-- Concrete dataset for the C1 witness: one well per reference gene. -/
def dataC1w : List Row := [⟨"w1", "S", "HK1", .fin 10⟩, ⟨"w2", "S", "HK2", .fin 40⟩]

/-- Witness for C1: with at most one non-missing well per gene the pooled
mean and the per-gene mean agree. -/
theorem c1_witness :
    hk_means dataC1w ["HK1", "HK2"] .individualMean "S"
      = specPerGeneArithMean dataC1w ["HK1", "HK2"] "S" := by
  apply c1_arith_pools_wells
  · intro r hr
    rcases List.mem_cons.mp hr with rfl | hr
    · exact Or.inr ⟨10, rfl⟩
    rcases List.mem_cons.mp hr with rfl | hr
    · exact Or.inr ⟨40, rfl⟩
    cases hr
  · decide

/-- Test for a strictly negative finite CT value. -/
noncomputable def negCt : RVal → Bool
  | .fin x => decide (x < 0)
  | _ => false

lemma dropna_cons_nan (t : List RVal) : dropna (.nan :: t) = dropna t := by
  simp [dropna, List.filter_cons, RVal.isNan]

lemma dropna_cons_keep {v : RVal} (h : v.isNan = false) (t : List RVal) :
    dropna (v :: t) = v :: dropna t := by
  simp [dropna, List.filter_cons, h]

lemma geo_dropna_filter_neg :
    ∀ l : List RVal,
      dropna ((dropna (l.filter (fun v => !negCt v))).map npLog)
        = dropna ((dropna l).map npLog) := by
  intro l
  induction l with
  | nil => rfl
  | cons v t ih =>
    cases v with
    | nan =>
      rw [List.filter_cons_of_pos (by simp [negCt]), dropna_cons_nan, dropna_cons_nan]
      exact ih
    | pinf =>
      rw [List.filter_cons_of_pos (by simp [negCt]),
        dropna_cons_keep (show (RVal.pinf).isNan = false from rfl),
        dropna_cons_keep (show (RVal.pinf).isNan = false from rfl), List.map_cons,
        List.map_cons, dropna_cons_keep (show (npLog .pinf).isNan = false from rfl),
        dropna_cons_keep (show (npLog .pinf).isNan = false from rfl)]
      rw [ih]
    | ninf =>
      rw [List.filter_cons_of_pos (by simp [negCt]),
        dropna_cons_keep (show (RVal.ninf).isNan = false from rfl),
        dropna_cons_keep (show (RVal.ninf).isNan = false from rfl), List.map_cons,
        List.map_cons, show npLog .ninf = .nan from rfl, dropna_cons_nan, dropna_cons_nan]
      exact ih
    | fin x =>
      by_cases hx : x < 0
      · have h2 : npLog (.fin x) = .nan := by
          simp only [npLog]
          rw [if_neg (by linarith), if_neg (by linarith)]
        rw [List.filter_cons_of_neg (by simp [negCt, hx]),
          dropna_cons_keep (show (RVal.fin x).isNan = false from rfl),
          List.map_cons, h2, dropna_cons_nan]
        exact ih
      · have h2 : (npLog (.fin x)).isNan = false := by
          simp only [npLog]
          split
          · rfl
          · split
            · rfl
            · next h3 h4 =>
              exact absurd (lt_of_le_of_ne (le_of_not_lt h3) h4) hx
        rw [List.filter_cons_of_pos (by simp [negCt, hx]),
          dropna_cons_keep (show (RVal.fin x).isNan = false from rfl),
          dropna_cons_keep (show (RVal.fin x).isNan = false from rfl), List.map_cons,
          List.map_cons, dropna_cons_keep h2, dropna_cons_keep h2]
        rw [ih]

lemma aggregate_geo_filter_neg (l : List RVal) :
    aggregate .geometricMean l = aggregate .geometricMean (l.filter (fun v => !negCt v)) := by
  unfold aggregate
  exact congrArg npExp (seriesMean_congr (geo_dropna_filter_neg l).symm)

lemma hkCts_filter_negCt (rows : List Row) (hk : List String) (s : String) :
    hkCts (rows.filter (fun r => !negCt r.ct)) hk s
      = (hkCts rows hk s).filter (fun v => !negCt v) := by
  have hL : hkCts (rows.filter (fun r => !negCt r.ct)) hk s
      = (rows.filter (fun r =>
          (!negCt r.ct && hk.contains r.target) && (r.sample == s))).map Row.ct := by
    unfold hkCts hk_data
    rw [filter_filter_merge (fun r => !negCt r.ct) (fun r => hk.contains r.target) rows,
      filter_filter_merge (fun r => !negCt r.ct && hk.contains r.target)
        (fun r => r.sample == s) rows]
  have hR : (hkCts rows hk s).filter (fun v => !negCt v)
      = (rows.filter (fun r => hk.contains r.target &&
          ((r.sample == s) && ((fun v => !negCt v) ∘ Row.ct) r))).map Row.ct := by
    unfold hkCts hk_data
    rw [List.filter_map,
      filter_filter_merge (fun r => r.sample == s) ((fun v => !negCt v) ∘ Row.ct)
        (rows.filter (fun r => hk.contains r.target)),
      filter_filter_merge (fun r => hk.contains r.target)
        (fun r => (r.sample == s) && ((fun v => !negCt v) ∘ Row.ct) r) rows]
  rw [hL, hR]
  apply congrArg (List.map Row.ct)
  apply List.filter_congr
  intro r _
  rcases hb1 : hk.contains r.target <;> rcases hb2 : (r.sample == s) <;>
    rcases hb3 : negCt r.ct <;> simp [Function.comp, hb1, hb2, hb3]

lemma hk_means_geo_filter_neg (rows : List Row) (hk : List String) (s : String) :
    hk_means rows hk .geometricMean s
      = hk_means (rows.filter (fun r => !negCt r.ct)) hk .geometricMean s := by
  unfold hk_means
  rw [hkCts_filter_negCt]
  by_cases he : (hkCts rows hk s).isEmpty = true
  · have he2 : ((hkCts rows hk s).filter (fun v => !negCt v)).isEmpty = true := by
      rw [List.isEmpty_iff] at he ⊢
      rw [he]
      rfl
    rw [if_pos he, if_pos he2]
  · rw [if_neg he]
    by_cases he2 : ((hkCts rows hk s).filter (fun v => !negCt v)).isEmpty = true
    · rw [if_pos he2]
      rw [aggregate_geo_filter_neg]
      rw [List.isEmpty_iff] at he2
      rw [he2]
      rfl
    · rw [if_neg he2]
      exact aggregate_geo_filter_neg (hkCts rows hk s)

lemma mem_hkCts_of_row {rows : List Row} {hk : List String} {s : String} {r : Row}
    (hr : r ∈ rows) (hc : hk.contains r.target = true) (hs : r.sample = s) :
    r.ct ∈ hkCts rows hk s := by
  apply List.mem_map.mpr
  refine ⟨r, ?_, rfl⟩
  apply List.mem_filter.mpr
  exact ⟨List.mem_filter.mpr ⟨hr, hc⟩, by simp [hs]⟩

lemma hk_means_geo_zero (rows : List Row) (hk : List String) (s : String)
    (h1 : ∀ r ∈ rows, finOrNan r.ct)
    (hzero : ∃ r ∈ rows, hk.contains r.target = true ∧ r.sample = s ∧ r.ct = .fin 0)
    (hnoneg : ∀ r ∈ rows, hk.contains r.target = true → r.sample = s →
      ∀ x : ℝ, r.ct = .fin x → 0 ≤ x) :
    hk_means rows hk .geometricMean s = .fin 0 := by
  have hmem0 : RVal.fin 0 ∈ hkCts rows hk s := by
    rcases hzero with ⟨r, hr, hc, hs, hct⟩
    rw [← hct]
    exact mem_hkCts_of_row hr hc hs
  have hvals : ∀ v ∈ hkCts rows hk s, ∀ x : ℝ, v = .fin x → 0 ≤ x := by
    intro v hv x hx
    simp only [hkCts, hk_data, List.mem_map, List.mem_filter] at hv
    rcases hv with ⟨r, ⟨⟨hr, hc⟩, hs⟩, rfl⟩
    exact hnoneg r hr hc (by simpa using hs) x hx
  have hXninf : RVal.ninf ∈ (dropna (hkCts rows hk s)).map npLog := by
    apply List.mem_map.mpr
    refine ⟨.fin 0, mem_dropna.mpr ⟨hmem0, rfl⟩, ?_⟩
    simp only [npLog]
    rw [if_neg (lt_irrefl 0)]
    simp
  have hnopinf : ∀ v ∈ (dropna (hkCts rows hk s)).map npLog, v.isPinf = false := by
    intro v hv
    rcases List.mem_map.mp hv with ⟨w, hw, rfl⟩
    exact npLog_not_pinf_of_finOrNan (mem_hkCts_finOrNan h1 w (mem_dropna.mp hw).1)
  have hnonan : ∀ v ∈ (dropna (hkCts rows hk s)).map npLog, v.isNan = false := by
    intro v hv
    rcases List.mem_map.mp hv with ⟨w, hw, rfl⟩
    rcases mem_dropna.mp hw with ⟨hwl, hwnn⟩
    rcases mem_hkCts_finOrNan h1 w hwl with hnan | ⟨x, hx⟩
    · rw [hnan] at hwnn
      simp [RVal.isNan] at hwnn
    · have hxge : 0 ≤ x := hvals w hwl x hx
      rw [hx]
      simp only [npLog]
      rcases lt_or_eq_of_le hxge with hlt | heq
      · rw [if_pos hlt]
        rfl
      · rw [if_neg (by rw [← heq]; exact lt_irrefl 0), if_pos heq.symm]
        rfl
  have hsm : seriesMean ((dropna (hkCts rows hk s)).map npLog) = .ninf := by
    unfold seriesMean
    have hdX : dropna ((dropna (hkCts rows hk s)).map npLog)
        = (dropna (hkCts rows hk s)).map npLog := by
      apply List.filter_eq_self.mpr
      intro v hv
      simp [hnonan v hv]
    rw [hdX]
    rw [any_isPinf_false hnopinf]
    rw [List.any_eq_true.mpr ⟨.ninf, hXninf, rfl⟩]
    have hne : ¬ ((dropna (hkCts rows hk s)).map npLog).isEmpty = true := by
      rw [List.isEmpty_iff]
      intro h0
      rw [h0] at hXninf
      cases hXninf
    rw [if_neg hne]
    simp
  have hcne : ¬ (hkCts rows hk s).isEmpty = true := by
    rw [List.isEmpty_iff]
    intro h0
    rw [h0] at hmem0
    cases hmem0
  unfold hk_means
  rw [if_neg hcne]
  show npExp (seriesMean ((dropna (hkCts rows hk s)).map npLog)) = .fin 0
  rw [hsm]
  rfl

/-- C2 (amended): in geometric-mean aggregation only NaN values are removed
before the logarithm.  A negative CT value is passed to the logarithm, whose
NaN result is then skipped by the NaN-skipping mean, so negatives are
effectively excluded; a zero CT value is not excluded: its logarithm `-inf`
drives the sample reference to 0. -/
theorem c2_geo_nonpositive (rows : List Row) (hk : List String) (s : String)
    (h1 : ∀ r ∈ rows, finOrNan r.ct) :
    (hk_means rows hk .geometricMean s
        = hk_means (rows.filter (fun r => !negCt r.ct)) hk .geometricMean s)
    ∧ ((∃ r ∈ rows, hk.contains r.target = true ∧ r.sample = s ∧ r.ct = .fin 0) →
       (∀ r ∈ rows, hk.contains r.target = true → r.sample = s →
          ∀ x : ℝ, r.ct = .fin x → 0 ≤ x) →
       hk_means rows hk .geometricMean s = .fin 0) :=
  ⟨hk_means_geo_filter_neg rows hk s,
   fun hz hn => hk_means_geo_zero rows hk s h1 hz hn⟩

/-- Concrete dataset for C2: one zero CT and one normal CT in the same
reference gene of one sample. -/
def dataC2 : List Row := [⟨"w1", "S", "HK", .fin 0⟩, ⟨"w2", "S", "HK", .fin 20⟩]

/-- The same dataset with the non-positive CT removed, as the claimed
exclusion policy would require. -/
def dataC2excl : List Row := [⟨"w2", "S", "HK", .fin 20⟩]

/-- C2 counterexample: the zero CT value is not treated as missing — with it
present the geometric reference collapses to 0, while excluding it (as the
claim asserts the code does) gives the nonzero reference exp(log 20). -/
theorem c2_counterexample :
    hk_means dataC2 ["HK"] .geometricMean "S" = .fin 0
    ∧ hk_means dataC2excl ["HK"] .geometricMean "S" ≠ .fin 0 := by
  constructor
  · apply hk_means_geo_zero
    · intro r hr
      rcases List.mem_cons.mp hr with rfl | hr
      · exact Or.inr ⟨0, rfl⟩
      rcases List.mem_cons.mp hr with rfl | hr
      · exact Or.inr ⟨20, rfl⟩
      cases hr
    · exact ⟨⟨"w1", "S", "HK", .fin 0⟩, List.mem_cons_self _ _, by decide, rfl, rfl⟩
    · intro r hr hc hs x hx
      rcases List.mem_cons.mp hr with rfl | hr
      · injection hx with h0
        exact le_of_eq h0
      rcases List.mem_cons.mp hr with rfl | hr
      · injection hx with h0
        rw [← h0]
        norm_num
      cases hr
  · have hl : npLog (.fin (20 : ℝ)) = .fin (Real.log 20) := by
      simp only [npLog]
      rw [if_pos (by norm_num)]
    have hX : (dropna (hkCts dataC2excl ["HK"] "S")).map npLog = [.fin (Real.log 20)] := by
      have h0 : dropna (hkCts dataC2excl ["HK"] "S") = [.fin 20] := rfl
      rw [h0, List.map_cons, List.map_nil, hl]
    have h0 : hk_means dataC2excl ["HK"] .geometricMean "S"
        = .fin (Real.exp ((Real.log 20 + 0) / ((1 : ℕ) : ℝ))) := by
      unfold hk_means
      rw [if_neg (by decide)]
      show npExp (seriesMean ((dropna (hkCts dataC2excl ["HK"] "S")).map npLog)) = _
      rw [hX]
      have hs1 : seriesMean [RVal.fin (Real.log 20)]
          = .fin ((Real.log 20 + 0) / ((1 : ℕ) : ℝ)) := rfl
      rw [hs1]
      rfl
    rw [h0]
    intro hcontra
    injection hcontra with hval
    have := Real.exp_pos ((Real.log 20 + 0) / ((1 : ℕ) : ℝ))
    rw [hval] at this
    exact lt_irrefl 0 this

/-- Concrete dataset for the C2 witness: a zero CT and a missing CT. -/
def dataC2w : List Row := [⟨"w1", "S", "HK", .fin 0⟩, ⟨"w2", "S", "HK", .nan⟩]

/-- Witness for C2: the amended statement applied to `dataC2w`, discharging
both hypotheses. -/
theorem c2_witness :
    (hk_means dataC2w ["HK"] .geometricMean "S"
        = hk_means (dataC2w.filter (fun r => !negCt r.ct)) ["HK"] .geometricMean "S")
    ∧ hk_means dataC2w ["HK"] .geometricMean "S" = .fin 0 := by
  have h1 : ∀ r ∈ dataC2w, finOrNan r.ct := by
    intro r hr
    rcases List.mem_cons.mp hr with rfl | hr
    · exact Or.inr ⟨0, rfl⟩
    rcases List.mem_cons.mp hr with rfl | hr
    · exact Or.inl rfl
    cases hr
  have h := c2_geo_nonpositive dataC2w ["HK"] "S" h1
  refine ⟨h.1, h.2 ⟨⟨"w1", "S", "HK", .fin 0⟩, List.mem_cons_self _ _, by decide, rfl, rfl⟩ ?_⟩
  intro r hr hc hs x hx
  rcases List.mem_cons.mp hr with rfl | hr
  · injection hx with h0
    exact le_of_eq h0
  rcases List.mem_cons.mp hr with rfl | hr
  · exact RVal.noConfusion hx
  cases hr

lemma ciChar_false_small {c t : Char} (hb : c.toNat ≤ 57) (ht : 100 ≤ t.toNat) :
    ciChar c t = false := by
  cases hcc : ciChar c t
  · rfl
  · exfalso
    simp only [ciChar, Bool.or_eq_true, beq_iff_eq] at hcc
    omega

lemma parseDec_head {u : List Char} {m : ℚ} {r : List Char}
    (h : parseDec u = some (m, r)) :
    ∃ c u', u = c :: u' ∧ (isDigitCh c = true ∨ c.toNat = 46) := by
  cases u with
  | nil =>
    rw [show parseDec [] = none from rfl] at h
    exact Option.noConfusion h
  | cons c u' =>
    by_cases hdig : isDigitCh c = true
    · exact ⟨c, u', rfl, Or.inl hdig⟩
    · by_cases h46 : c.toNat = 46
      · exact ⟨c, u', rfl, Or.inr h46⟩
      · exfalso
        have hdf : isDigitCh c = false := bool_false_of_not_true hdig
        have hnone : parseDec (c :: u') = none := by
          unfold parseDec
          rw [List.takeWhile_cons, List.dropWhile_cons, hdf]
          simp only [Bool.false_eq_true, if_false]
          rw [if_neg h46]
          rfl
        rw [hnone] at h
        exact Option.noConfusion h

lemma parseUnsigned_head {u : List Char} {m : ℚ} {r : List Char}
    (h : parseUnsigned u = some (m, r)) :
    ∃ c u', u = c :: u' ∧ (isDigitCh c = true ∨ c.toNat = 46) := by
  unfold parseUnsigned at h
  cases hd : parseDec u with
  | none =>
    rw [hd] at h
    exact Option.noConfusion h
  | some p =>
    exact parseDec_head hd

lemma parseQ_head {s : List Char} {q : ℚ} (h : parseQ s = some q) :
    ∃ c u', afterSign s = c :: u' ∧ (isDigitCh c = true ∨ c.toNat = 46) := by
  unfold parseQ at h
  cases hpu : parseUnsigned (afterSign s) with
  | none =>
    rw [hpu] at h
    exact Option.noConfusion h
  | some p =>
    exact parseUnsigned_head hpu

lemma parseNumeric_of_head {s : List Char} {c : Char} {u' : List Char}
    (hu : afterSign s = c :: u') (hc : isDigitCh c = true ∨ c.toNat = 46) :
    parseNumeric s = (parseQ s).map (fun q => RVal.fin (q : ℝ)) := by
  have hb : c.toNat ≤ 57 := by
    rcases hc with hd | h46
    · simp only [isDigitCh, Bool.and_eq_true, decide_eq_true_eq] at hd
      omega
    · omega
  have hci : ciChar c 'i' = false := ciChar_false_small hb (by decide)
  have hcn : ciChar c 'n' = false := ciChar_false_small hb (by decide)
  have hw1 : ciWord (c :: u') "infinity".data = none := by
    rw [show "infinity".data = 'i' :: "nfinity".data from rfl]
    simp [ciWord, hci]
  have hw2 : ciWord (c :: u') "inf".data = none := by
    rw [show "inf".data = 'i' :: "nf".data from rfl]
    simp [ciWord, hci]
  have hw3 : ciWord (c :: u') "nan".data = none := by
    rw [show "nan".data = 'n' :: "an".data from rfl]
    simp [ciWord, hcn]
  unfold parseNumeric
  rw [hu]
  simp only [hw1, hw2, hw3]

lemma parseNumeric_none_of_undetermined {s : List Char}
    (h : ciStr s "undetermined".data = true) : parseNumeric s = none := by
  cases s with
  | nil =>
    rw [show ciStr [] "undetermined".data = false from rfl] at h
    exact Bool.noConfusion h
  | cons c cs =>
    have hcc : ciChar c 'u' = true := by
      rw [show "undetermined".data = 'u' :: "ndetermined".data from rfl] at h
      simp only [ciStr, Bool.and_eq_true] at h
      exact h.1
    have h85 : c.toNat = 117 ∨ c.toNat = 85 := by
      simp only [ciChar, Bool.or_eq_true, beq_iff_eq] at hcc
      have h117 : ('u').toNat = 117 := rfl
      rw [h117] at hcc
      omega
    have hsp : isSpaceCh c = false := by
      cases hspc : isSpaceCh c
      · rfl
      · exfalso
        simp only [isSpaceCh, Bool.or_eq_true, Bool.and_eq_true, decide_eq_true_eq] at hspc
        omega
    have haf : afterSign (c :: cs) = c :: cs := by
      unfold afterSign
      rw [List.dropWhile_cons, hsp]
      simp only [Bool.false_eq_true, if_false]
      show (if c.toNat = 45 then (true, cs) else if c.toNat = 43 then (false, cs)
        else (false, c :: cs)).2 = c :: cs
      rw [if_neg (by omega), if_neg (by omega)]
    have hci : ciChar c 'i' = false := by
      cases hcc2 : ciChar c 'i'
      · rfl
      · exfalso
        simp only [ciChar, Bool.or_eq_true, beq_iff_eq] at hcc2
        have h105 : ('i').toNat = 105 := rfl
        rw [h105] at hcc2
        omega
    have hcn : ciChar c 'n' = false := by
      cases hcc2 : ciChar c 'n'
      · rfl
      · exfalso
        simp only [ciChar, Bool.or_eq_true, beq_iff_eq] at hcc2
        have h110 : ('n').toNat = 110 := rfl
        rw [h110] at hcc2
        omega
    have hdg : isDigitCh c = false := by
      cases hd : isDigitCh c
      · rfl
      · exfalso
        simp only [isDigitCh, Bool.and_eq_true, decide_eq_true_eq] at hd
        omega
    have hw1 : ciWord (c :: cs) "infinity".data = none := by
      rw [show "infinity".data = 'i' :: "nfinity".data from rfl]
      simp [ciWord, hci]
    have hw2 : ciWord (c :: cs) "inf".data = none := by
      rw [show "inf".data = 'i' :: "nf".data from rfl]
      simp [ciWord, hci]
    have hw3 : ciWord (c :: cs) "nan".data = none := by
      rw [show "nan".data = 'n' :: "an".data from rfl]
      simp [ciWord, hcn]
    have hpd : parseDec (c :: cs) = none := by
      unfold parseDec
      rw [List.takeWhile_cons, List.dropWhile_cons, hdg]
      simp only [Bool.false_eq_true, if_false]
      rw [if_neg (by omega)]
      rfl
    have hq : parseQ (c :: cs) = none := by
      unfold parseQ
      rw [haf]
      unfold parseUnsigned
      rw [hpd]
    unfold parseNumeric
    rw [haf]
    simp only [hw1, hw2, hw3, hq]
    rfl

/-- C5: CT coercion sends any string that case-insensitively equals the
sentinel `undetermined` to missing, parses any numeric string to exactly its
value, degrades any unparseable string (and the empty cell) to missing, and
returns an already-numeric cell unchanged; being a total function, it never
raises. -/
theorem c5_ct_coercion :
    (∀ s : List Char, ciStr s "undetermined".data = true → ctCoerce (.str s) = .nan)
    ∧ (∀ (s : List Char) (q : ℚ), parseQ s = some q → ctCoerce (.str s) = .fin (q : ℝ))
    ∧ (∀ s : List Char, parseNumeric s = none → ctCoerce (.str s) = .nan)
    ∧ (∀ x : ℝ, ctCoerce (.num x) = .fin x)
    ∧ ctCoerce .empty = .nan := by
  refine ⟨?_, ?_, ?_, fun x => rfl, rfl⟩
  · intro s h
    show (if s = "Undetermined".data then RVal.nan
      else match parseNumeric s with | some v => v | none => RVal.nan) = RVal.nan
    by_cases hs : s = "Undetermined".data
    · rw [if_pos hs]
    · rw [if_neg hs, parseNumeric_none_of_undetermined h]
  · intro s q h
    show (if s = "Undetermined".data then RVal.nan
      else match parseNumeric s with | some v => v | none => RVal.nan) = .fin (q : ℝ)
    have hs : ¬ s = "Undetermined".data := by
      intro he
      rw [he] at h
      rw [show parseQ "Undetermined".data = none from by decide] at h
      exact Option.noConfusion h
    rw [if_neg hs]
    rcases parseQ_head h with ⟨c, u', hu, hc⟩
    rw [parseNumeric_of_head hu hc, h]
    rfl
  · intro s h
    show (if s = "Undetermined".data then RVal.nan
      else match parseNumeric s with | some v => v | none => RVal.nan) = RVal.nan
    by_cases hs : s = "Undetermined".data
    · rw [if_pos hs]
    · rw [if_neg hs, h]

/-- Witness for C5: concrete coercions — a mixed-case sentinel, an exact
decimal parse, a malformed string, a numeric cell and an empty cell. -/
theorem c5_witness :
    ctCoerce (.str "UnDeTeRmInEd".data) = .nan
    ∧ ctCoerce (.str "12.5".data) = .fin ((Rat.divInt 25 2 : ℚ) : ℝ)
    ∧ ctCoerce (.str "abc".data) = .nan
    ∧ ctCoerce (.num 21) = .fin 21
    ∧ ctCoerce .empty = .nan := by
  refine ⟨c5_ct_coercion.1 _ (by decide),
    c5_ct_coercion.2.1 _ (Rat.divInt 25 2) (by decide),
    c5_ct_coercion.2.2.1 _ ?_, c5_ct_coercion.2.2.2.1 21, c5_ct_coercion.2.2.2.2⟩
  rfl

lemma findSome_reverse_range {b : Type} (f : ℕ → Option b) :
    ∀ (n m : ℕ) (r : b), m < n → f m = some r → (∀ k, m < k → k < n → f k = none) →
      ((List.range n).reverse.findSome? f) = some r := by
  intro n
  induction n with
  | zero =>
    intro m r hm
    exact absurd hm (Nat.not_lt_zero m)
  | succ n ih =>
    intro m r hm hf hnone
    rw [List.range_succ, List.reverse_append]
    simp only [List.reverse_cons, List.reverse_nil, List.nil_append, List.singleton_append]
    rw [List.findSome?_cons]
    by_cases hmn : m = n
    · subst hmn
      rw [hf]
    · have hlt : m < n := by omega
      rw [hnone n hlt (by omega)]
      exact ih m r hlt hf (fun k hk1 hk2 => hnone k hk1 (by omega))

lemma searchExtract_of_zero {s : List Char} {pr : List Char × List Char}
    (h : searchFrom s 0 = some pr) : searchExtract s = some pr := by
  unfold searchExtract
  rw [List.range_succ_eq_map, List.findSome?_cons, h]

lemma searchFrom_zero_eq {s p t d : List Char} (hs : s = p ++ t) (hw : wsDigits t = some d)
    (hnl : ∀ c ∈ s, isNLCh c = false)
    (hmax : ∀ j, j ≤ s.length → (wsDigits (s.drop j)).isSome = true → j ≤ p.length) :
    searchFrom s 0 = some (p, d) := by
  unfold searchFrom
  rw [Nat.sub_zero]
  apply findSome_reverse_range (fun k => tryAt s 0 k) (s.length + 1) p.length (p, d)
  · have hlen : p.length ≤ s.length := by
      rw [hs, List.length_append]
      omega
    omega
  · show tryAt s 0 p.length = some (p, d)
    unfold tryAt
    have h1 : (s.drop 0).take p.length = p := by
      rw [List.drop_zero, hs]
      exact List.take_left p t
    rw [h1]
    rw [if_pos (List.all_eq_true.mpr (fun c hc => by
      rw [hnl c (by rw [hs]; exact List.mem_append_left t hc)]
      rfl))]
    have h2 : s.drop (0 + p.length) = t := by
      rw [Nat.zero_add, hs]
      exact List.drop_left p t
    rw [h2, hw]
  · intro k h1 h2
    show tryAt s 0 k = none
    unfold tryAt
    have hwd : wsDigits (s.drop (0 + k)) = none := by
      rw [Nat.zero_add]
      cases hcase : wsDigits (s.drop k) with
      | none => rfl
      | some d' => exact absurd (hmax k (by omega) (by rw [hcase]; rfl)) (by omega)
    rw [hwd]
    by_cases hall : ((s.drop 0).take k).all (fun c => !isNLCh c) = true
    · rw [if_pos hall]
    · rw [if_neg hall]

lemma wsDigits_sound {t d : List Char} (h : wsDigits t = some d) :
    t = t.takeWhile isSpaceCh ++ d ∧ t.takeWhile isSpaceCh ≠ []
      ∧ (t.takeWhile isSpaceCh).all isSpaceCh = true ∧ d ≠ [] ∧ d.all isDigitCh = true := by
  unfold wsDigits at h
  by_cases h1 : (t.takeWhile isSpaceCh).isEmpty = true
  · rw [if_pos h1] at h
    exact Option.noConfusion h
  · rw [if_neg h1] at h
    by_cases h2 : (t.dropWhile isSpaceCh).isEmpty = true
    · rw [if_pos h2] at h
      exact Option.noConfusion h
    · rw [if_neg h2] at h
      by_cases h3 : (t.dropWhile isSpaceCh).all isDigitCh = true
      · rw [if_pos h3] at h
        injection h with hd
        refine ⟨?_, ?_, ?_, ?_, ?_⟩
        · rw [← hd]
          exact (List.takeWhile_append_dropWhile _ _).symm
        · intro hnil
          rw [List.isEmpty_iff] at h1
          exact h1 hnil
        · exact List.all_eq_true.mpr (fun c hc => List.mem_takeWhile_imp hc)
        · intro hnil
          rw [List.isEmpty_iff] at h2
          rw [← hd] at hnil
          exact h2 hnil
        · rw [← hd]
          exact h3
      · rw [if_neg h3] at h
        exact Option.noConfusion h

lemma searchExtract_sound {s : List Char} {pr : List Char × List Char}
    (h : searchExtract s = some pr) :
    ∃ p w : List Char, s = p ++ w ++ pr.2 ∧ w ≠ [] ∧ w.all isSpaceCh = true
      ∧ pr.2 ≠ [] ∧ pr.2.all isDigitCh = true := by
  unfold searchExtract at h
  rcases List.exists_of_findSome?_eq_some h with ⟨s0, hs0, hsf⟩
  unfold searchFrom at hsf
  rcases List.exists_of_findSome?_eq_some hsf with ⟨k, hk, htry⟩
  unfold tryAt at htry
  by_cases hall : ((s.drop s0).take k).all (fun c => !isNLCh c) = true
  · rw [if_pos hall] at htry
    cases hw : wsDigits (s.drop (s0 + k)) with
    | none =>
      rw [hw] at htry
      exact Option.noConfusion htry
    | some d =>
      rw [hw] at htry
      injection htry with hpr
      subst hpr
      rcases wsDigits_sound hw with ⟨hsplit, hwne, hws, hdne, hdall⟩
      refine ⟨s.take (s0 + k), (s.drop (s0 + k)).takeWhile isSpaceCh, ?_, hwne, hws, hdne, hdall⟩
      rw [List.append_assoc]
      conv_lhs => rw [← List.take_append_drop (s0 + k) s]
      rw [← hsplit]
  · rw [if_neg hall] at htry
    exact Option.noConfusion htry

/-- C9 (amended): for a newline-free sample name, the extraction of line 50
returns as condition the longest prefix whose remainder is a whitespace run
followed by a trailing digit run (so any whitespace beyond the single
separator character stays in the condition), and the digit run as replicate;
conversely every successful extraction decomposes the name as prefix,
nonempty whitespace, nonempty trailing digits, so a name without that
structure yields missing condition and replicate. -/
theorem c9_label_extraction :
    (∀ s p t d : List Char, (∀ c ∈ s, isNLCh c = false) → s = p ++ t →
        wsDigits t = some d →
        (∀ j, j ≤ s.length → (wsDigits (s.drop j)).isSome = true → j ≤ p.length) →
        searchExtract s = some (p, d))
    ∧ (∀ (s : List Char) (pr : List Char × List Char), searchExtract s = some pr →
        ∃ p w : List Char, s = p ++ w ++ pr.2 ∧ w ≠ [] ∧ w.all isSpaceCh = true
          ∧ pr.2 ≠ [] ∧ pr.2.all isDigitCh = true) :=
  ⟨fun _ _ _ _ hnl hs hw hmax => searchExtract_of_zero (searchFrom_zero_eq hs hw hnl hmax),
   fun _ _ h => searchExtract_sound h⟩

/-- C9 counterexample: the name `DrugX  2` (two spaces) decomposes as
prefix `DrugX`, whitespace, trailing digits, yet the extraction does not
return `DrugX` as the condition (it returns `DrugX ` with a trailing
space). -/
theorem c9_counterexample :
    ("DrugX  2".data = "DrugX".data ++ "  ".data ++ "2".data
      ∧ "  ".data ≠ ([] : List Char) ∧ "  ".data.all isSpaceCh = true
      ∧ "2".data ≠ ([] : List Char) ∧ "2".data.all isDigitCh = true)
    ∧ searchExtract "DrugX  2".data ≠ some ("DrugX".data, "2".data) := by
  refine ⟨⟨rfl, by decide, by decide, by decide, by decide⟩, by decide⟩

/-- Witness for C9: the amended statement applied to `DrugX 2`, plus the
missing-label case `ControlSample`. -/
theorem c9_witness :
    searchExtract "DrugX 2".data = some ("DrugX".data, "2".data)
    ∧ searchExtract "ControlSample".data = none := by
  constructor
  · apply c9_label_extraction.1 "DrugX 2".data "DrugX".data " 2".data "2".data
    · decide
    · decide
    · decide
    · decide
  · decide
